import Mathlib

/-!
Shallow embedding of the `nt` note-taking command-line program
(`src/main.rs`), covering the interactive search-select-edit pipeline:
match resolution (`splitn(3, ':')`), the preview-generation command
(`bat ... | head -n10` with an `awk` start-line clamp), editor dispatch
(the `match editor { "vim" => ..., x => edit::edit_file(Path::new(x)) }`
branch), the search delegate (`rg` output capture), and the preview
renderer (`print_preview`).

External collaborators (the `rg` search engine, the `skim` selector, the
`edit` crate, the editor process itself) are modelled as parameters or,
where a fixed contract is needed, by definitions whose doc comments say
they are modelled from the spec.
-/

namespace Nt

/-! ### Preview renderer (`print_preview`, src/main.rs lines 18-46) -/

/-- The `Action` enum of the source: the tag passed to `print_preview`. -/
inductive Action where
  | Created
  | Edited

/-- The string each `Action` variant is rendered as in `print_preview`
(the inner `match action` of the source). -/
def actionName : Action → String
  | .Created => "Created"
  | .Edited => "Edited"

/-- Models the `colored` crate's `.bold()` styling (ANSI bold wrapping)
as applied to the file name in `print_preview`. -/
def bold (s : String) : String := "\x1b[1m" ++ s ++ "\x1b[0m"

/-- Models the `colored` crate's `.bright_black()` styling (ANSI
bright-black wrapping) as applied to the first line in `print_preview`. -/
def brightBlack (s : String) : String := "\x1b[90m" ++ s ++ "\x1b[0m"

/-- Splits a character list at every occurrence of `c` (the fields
between separators, boundary fields included), like Rust's `str::split`
on a single-character pattern. -/
def splitAllChar (c : Char) : List Char → List (List Char)
  | [] => [[]]
  | x :: xs =>
    let r := splitAllChar c xs
    if x = c then [] :: r
    else
      match r with
      | [] => [[x]]
      | h :: t => (x :: h) :: t

/-- Models Rust's `Path::file_name` on a path rendered as a string: the
last path component after `/`-splitting, skipping empty components and
`.`; `none` when there is no usable final component (empty path, root, or
a path ending in `..`), which makes the source's `.unwrap()` panic. -/
def fileName (p : String) : Option String :=
  match (((splitAllChar '/' p.toList).map String.mk).filter
      (fun c => c ≠ "" && c ≠ ".")).getLast? with
  | none => none
  | some c => if c = ".." then none else some c

/-- `print_preview` from the source, with the opened file's line sequence
passed in explicitly (the `BufReader::lines` stream). The source loops
over the lines but unconditionally `return`s at the end of the first
iteration, so only the first line is ever consumed; an empty file prints
nothing. `none` models the panic of `file_name().unwrap()` on a path with
no final component. -/
def print_preview (action : Action) (fullname : String) (fileLines : List String) :
    Option (List String) :=
  match fileLines with
  | [] => some []
  | line :: _ =>
    (fileName fullname).map (fun base =>
      [actionName action ++ " " ++ bold base ++ " [" ++ brightBlack line ++ "]"])

/-! ### Match resolver (`splitn(3, ':')`, src/main.rs lines 101-105) -/

/-- Splits a character list at the first occurrence of `c`: returns the
prefix before and the suffix after that occurrence, or `none` if `c`
does not occur. Helper for modelling Rust's `str::splitn`. -/
def breakAtChar (c : Char) : List Char → Option (List Char × List Char)
  | [] => none
  | x :: xs =>
    if x = c then some ([], xs)
    else (breakAtChar c xs).map (fun pr => (x :: pr.1, pr.2))

/-- Rust's `str::splitn(n, c)` on a character list: at most `n` chunks,
the last chunk keeping the rest (including further separators) verbatim. -/
def splitnList : Nat → Char → List Char → List (List Char)
  | 0, _, _ => []
  | 1, _, s => [s]
  | n + 2, c, s =>
    match breakAtChar c s with
    | none => [s]
    | some (pre, post) => pre :: splitnList (n + 1) c post

/-- Rust's `str::splitn(n, c)` on a string, as used by the match
resolver: `output.splitn(3, ':')`. -/
def splitn (n : Nat) (c : Char) (s : String) : List String :=
  (splitnList n c s.toList).map (fun l => String.mk l)

/-- Number of occurrences of a character in a string (used to state the
delimiter-count contracts of the spec). -/
def countChar (c : Char) (s : String) : Nat := s.toList.count c

/-- The match resolver of the edit loop: `let split = output.splitn(3,
':')` followed by `split[0]` (path) and `split[1]` (line number). The
source indexes `split[1]` without a length check, so an input producing
fewer than two chunks panics (index out of bounds), modelled as `none`;
`split[2]` is never read. -/
def resolveItem (output : String) : Option (String × String) :=
  match splitn 3 ':' output with
  | p :: l :: _ => some (p, l)
  | _ => none

/-- The three-field view of the source's `splitn(3, ':')` split: the
SelectionItem decoding of the spec (path, line number, remainder as
content verbatim). `none` when the split yields fewer than three chunks. -/
def decodeItem (s : String) : Option (String × String × String) :=
  match splitn 3 ':' s with
  | [p, l, c] => some (p, l, c)
  | _ => none

/-- Modelled from the spec: the SelectionItem wire encoding
`path:line_number:content` produced by the external search engine
(`rg --line-number --no-heading`), which is not part of src/. -/
def encodeMatch (path : String) (lineNumber : Nat) (content : String) : String :=
  path ++ ":" ++ toString lineNumber ++ ":" ++ content

/-! ### Preview-generation command (src/main.rs lines 78-80) -/

/-- The `bat_cmd` string of the source. -/
def bat_cmd : String :=
  "bat --style=numbers --color=always --highlight-line {2} --line-range"

/-- The `awk_cmd` string of the source (apostrophes and braces written as
escapes): `(echo {2} | awk '{a=$1-5;if(a<0)a=0;print a}')`. -/
def awk_cmd : String :=
  "(echo \x7b2\x7d | awk \x27\x7ba=$1-5;if(a<0)a=0;print a\x7d\x27)"

/-- The `preview_cmd` string of the source:
`format!("{} {}: {{1}} | head -n10", bat_cmd, awk_cmd)`. -/
def preview_cmd : String := bat_cmd ++ " " ++ awk_cmd ++ ": \x7b1\x7d | head -n10"

/-- The start-line computation performed by the `awk` stage of
`preview_cmd` (`a=$1-5;if(a<0)a=0;print a`) on the highlighted line
number. -/
def awkStart (n : Int) : Int := if n - 5 < 0 then 0 else n - 5

/-- The final `head -n10` stage of `preview_cmd`: truncates the piped
preview lines to at most 10. -/
def headLines (previewLines : List String) : List String := previewLines.take 10

/-! ### Editor launcher (src/main.rs lines 107-128) -/

/-- The observable process invocation built by the edit loop: either a
direct spawn with an argument list and inherited stdio (the `vim`
branch's `Command::new(&editor)...`), or a call to the `edit` crate's
`edit_file` on a path (the fallback branch). -/
inductive Invocation where
  | spawn (program : String) (args : List String) (inheritStdio : Bool)
  | editFile (path : String)
deriving DecidableEq

/-- Editor dispatch of the source: `match
editor.as_path().display().to_string().as_ref()` — the full display
string of the resolved editor is compared against `"vim"`. The `vim`
branch passes `+<lineno>` then the selected path with inherited stdio;
every other value `x` falls through to `edit::edit_file(Path::new(x))`,
whose path argument is `x` itself, the editor string. -/
def dispatchEditor (editor lineno fullname : String) : Invocation :=
  match editor with
  | "vim" => .spawn editor ["+" ++ lineno, fullname] true
  | x => .editFile x

/-- One iteration of the edit loop (`for item in selected_items`):
resolve the item, dispatch the editor, run it, then preview. `spawn`
models the external process launch: `none` is a failure to start (the
source's `.expect(...)` panics — for the fallback branch the `edit`
crate's start-failure error is modelled from the spec, the crate being
external), `some code` an editor that started and exited with status
`code`; the source reads `.status` and discards it, so the exit code is
never inspected. On success the preview of the resolved path runs. -/
def editStep (editor : String) (spawn : Invocation → Option Int)
    (fileLinesOf : String → List String) (output : String) :
    Option (Invocation × List String) :=
  match resolveItem output with
  | none => none
  | some (p, l) =>
    let inv := dispatchEditor editor l p
    match spawn inv with
    | none => none
    | some _ => (print_preview Action.Edited p (fileLinesOf p)).map (fun o => (inv, o))

/-! ### Search delegate and item stream (src/main.rs lines 67-99) -/

/-- The search delegate's capture of `rg`: `Command::output()` errors
only when the process cannot be spawned (`.expect("rg to work")` panics,
modelled as `none`); otherwise the `Output`'s `(status, stdout)` pair is
available and the source takes `.stdout` alone, never reading the
status. -/
def searchStdout (spawnResult : Option (Int × String)) : Option String :=
  spawnResult.map (fun r => r.2)

/-- Modelled from the spec: the `skim` crate's `SkimItemReader.of_bufread`
(external to src/) turns captured bytes into one selectable item per
non-empty line. -/
def itemsOfStdout (stdout : String) : List String :=
  ((splitAllChar '\n' stdout.toList).map String.mk).filter (fun l => l ≠ "")

/-- The whole edit loop over the selected items, in selection order; a
panic in any step (modelled `none`) aborts the loop. -/
def searchLoop (editor : String) (spawn : Invocation → Option Int)
    (fileLinesOf : String → List String) (items : List String) :
    Option (List (Invocation × List String)) :=
  items.mapM (fun it => editStep editor spawn fileLinesOf it)


/-! ### Helper lemmas -/

set_option maxRecDepth 8000

theorem mk_toList (s : String) : String.mk s.toList = s := rfl

theorem toList_append (a b : String) : (a ++ b).toList = a.toList ++ b.toList := rfl

theorem breakAtChar_eq_none {c : Char} : ∀ {s : List Char}, breakAtChar c s = none ↔ c ∉ s := by
  intro s
  induction s with
  | nil => simp [breakAtChar]
  | cons x xs ih =>
    simp only [breakAtChar]
    by_cases hx : x = c
    · subst hx
      simp
    · rw [if_neg hx, List.mem_cons]
      simp only [Option.map_eq_none', ih]
      constructor
      · intro h hc
        rcases hc with hc | hc
        · exact hx hc.symm
        · exact h hc
      · intro h hc
        exact h (Or.inr hc)

theorem breakAtChar_eq_some {c : Char} :
    ∀ {s pre post : List Char}, breakAtChar c s = some (pre, post) → s = pre ++ c :: post := by
  intro s
  induction s with
  | nil => intro pre post h; simp [breakAtChar] at h
  | cons x xs ih =>
    intro pre post h
    simp only [breakAtChar] at h
    by_cases hx : x = c
    · rw [if_pos hx] at h
      simp only [Option.some.injEq, Prod.mk.injEq] at h
      obtain ⟨h1, h2⟩ := h
      subst hx
      rw [← h1, ← h2]
      rfl
    · rw [if_neg hx] at h
      obtain ⟨⟨p2, q2⟩, hbk, heq⟩ := Option.map_eq_some'.1 h
      simp only [Prod.mk.injEq] at heq
      obtain ⟨h1, h2⟩ := heq
      subst h2
      rw [← h1, List.cons_append]
      exact congrArg (x :: ·) (ih hbk)

theorem breakAtChar_append {c : Char} {pre : List Char} (h : c ∉ pre) (post : List Char) :
    breakAtChar c (pre ++ c :: post) = some (pre, post) := by
  induction pre with
  | nil => simp [breakAtChar]
  | cons x xs ih =>
    have hx : ¬x = c := fun e => h (e ▸ List.mem_cons_self x xs)
    have hxs : c ∉ xs := fun hc => h (List.mem_cons_of_mem _ hc)
    simp [breakAtChar, hx, ih hxs]

theorem splitnList_ne_nil (n : Nat) (c : Char) (s : List Char) : splitnList (n + 1) c s ≠ [] := by
  cases n with
  | zero => simp [splitnList]
  | succ m =>
    simp only [splitnList]
    split <;> simp

theorem splitnList3_none {c : Char} {xs : List Char} (hb : breakAtChar c xs = none) :
    splitnList 3 c xs = [xs] := by
  simp only [splitnList, hb]

theorem splitnList3_some {c : Char} {xs pre post : List Char}
    (hb : breakAtChar c xs = some (pre, post)) :
    splitnList 3 c xs = pre :: splitnList 2 c post := by
  simp only [splitnList, hb]

theorem resolveItem_isSome_iff (s : String) : (resolveItem s).isSome ↔ ':' ∈ s.toList := by
  cases hb : breakAtChar ':' s.toList with
  | none =>
    have hmem := breakAtChar_eq_none.1 hb
    have h3 : splitn 3 ':' s = [String.mk s.toList] := by
      unfold splitn
      rw [splitnList3_none hb]
      rfl
    unfold resolveItem
    rw [h3]
    simpa using hmem
  | some pr =>
    obtain ⟨pre, post⟩ := pr
    have hmem : ':' ∈ s.toList := by
      rw [breakAtChar_eq_some hb]
      simp
    obtain ⟨h1, t1, hsp⟩ : ∃ h1 t1, splitnList 2 ':' post = h1 :: t1 := by
      cases hs : splitnList 2 ':' post with
      | nil => exact absurd hs (splitnList_ne_nil 1 ':' post)
      | cons h1 t1 => exact ⟨h1, t1, rfl⟩
    have h3 : splitn 3 ':' s = String.mk pre :: String.mk h1 :: (t1.map (fun l => String.mk l)) := by
      unfold splitn
      rw [splitnList3_some hb, hsp]
      rfl
    unfold resolveItem
    rw [h3]
    exact iff_of_true rfl hmem

theorem digitChar_ne_colon (n : Nat) : Nat.digitChar n ≠ ':' := by
  rcases Nat.lt_or_ge n 16 with h16 | h16
  · interval_cases n <;> decide
  · have h0 : ¬n = 0 := by omega
    have h1 : ¬n = 1 := by omega
    have h2 : ¬n = 2 := by omega
    have h3 : ¬n = 3 := by omega
    have h4 : ¬n = 4 := by omega
    have h5 : ¬n = 5 := by omega
    have h6 : ¬n = 6 := by omega
    have h7 : ¬n = 7 := by omega
    have h8 : ¬n = 8 := by omega
    have h9 : ¬n = 9 := by omega
    have ha : ¬n = 10 := by omega
    have hb : ¬n = 11 := by omega
    have hc : ¬n = 12 := by omega
    have hd : ¬n = 13 := by omega
    have he : ¬n = 14 := by omega
    have hf : ¬n = 15 := by omega
    simp only [Nat.digitChar, h0, h1, h2, h3, h4, h5, h6, h7, h8, h9, ha, hb, hc, hd, he, hf,
      if_false]
    decide

theorem toDigitsCore_no_colon :
    ∀ (fuel n : Nat) (ds : List Char), ':' ∉ ds → ':' ∉ Nat.toDigitsCore 10 fuel n ds := by
  intro fuel
  induction fuel with
  | zero =>
    intro n ds h
    simpa [Nat.toDigitsCore] using h
  | succ f ih =>
    intro n ds h
    simp only [Nat.toDigitsCore]
    split
    · intro hmem
      rcases List.mem_cons.1 hmem with he | hds
      · exact digitChar_ne_colon _ he.symm
      · exact h hds
    · apply ih
      intro hmem
      rcases List.mem_cons.1 hmem with he | hds
      · exact digitChar_ne_colon _ he.symm
      · exact h hds

theorem toString_nat_no_colon (n : Nat) : ':' ∉ (toString n).toList :=
  toDigitsCore_no_colon (n + 1) n [] (List.not_mem_nil _)

theorem splitnList_three_encode {c : Char} {P L C : List Char} (hP : c ∉ P) (hL : c ∉ L) :
    splitnList 3 c (P ++ c :: (L ++ c :: C)) = [P, L, C] := by
  simp only [splitnList, breakAtChar_append hP, breakAtChar_append hL]


/-! ### Claim theorems -/

/-- Claim C1, counterexample: the input "path:5" contains exactly one
occurrence of the delimiter, yet the match resolver succeeds on it
(yielding path "path" and line field "5") instead of failing with a
parse error as the claim requires. -/
theorem resolveItem_single_delimiter_succeeds :
    countChar ':' "path:5" = 1 ∧ resolveItem "path:5" = some ("path", "5") := by
  constructor
  · decide
  · decide

/-- Claim C1 (amended): the match resolver fails only on inputs containing
no delimiter occurrence at all — it succeeds exactly when at least one
':' is present, since only `split[0]` and `split[1]` are read; in
particular "path:5" succeeds with fields ("path", "5"), and "path:5:"
(empty trailing content) also succeeds with the same two fields. -/
theorem resolveItem_fails_iff_no_delimiter :
    (∀ s : String, (resolveItem s).isSome ↔ 1 ≤ countChar ':' s) ∧
    resolveItem "path:5" = some ("path", "5") ∧
    resolveItem "path:5:" = some ("path", "5") := by
  refine ⟨fun s => ?_, by decide, by decide⟩
  rw [resolveItem_isSome_iff]
  exact List.count_pos_iff.symm

/-- Claim C2, evaluation at the failing input: with resolved editor
"nano" and a selected match whose path is "/notes/a.md" at line "3", the
fallback branch builds `edit::edit_file(Path::new("nano"))` — the file
argument is the editor string itself, not the match's target path. -/
theorem dispatch_generic_opens_editor_path :
    dispatchEditor "nano" "3" "/notes/a.md" = Invocation.editFile "nano" := rfl

/-- Claim C3, counterexample: the resolved editor value "/usr/bin/vim"
has base command name "vim", yet dispatch takes the generic branch —
the source compares the full display string with "vim", not the base
name. -/
theorem dispatch_full_path_vim_goes_generic :
    fileName "/usr/bin/vim" = some "vim" ∧
    dispatchEditor "/usr/bin/vim" "3" "/notes/a.md" = Invocation.editFile "/usr/bin/vim" := by
  constructor
  · decide
  · rfl

/-- Claim C3 (amended): editor dispatch is keyed on the full resolved
editor value (the display string of the editor path): the
line-addressable invocation is chosen exactly when that entire string
equals "vim"; any other value — including an absolute path such as
"/usr/bin/vim" whose base name is "vim" — takes the generic branch. -/
theorem dispatch_keyed_on_full_string (editor lineno fullname : String) :
    dispatchEditor editor lineno fullname
        = Invocation.spawn editor ["+" ++ lineno, fullname] true ↔ editor = "vim" := by
  constructor
  · intro h
    by_cases he : editor = "vim"
    · exact he
    · exfalso
      unfold dispatchEditor at h
      split at h
      · exact he rfl
      · exact Invocation.noConfusion h
  · intro he
    subst he
    rfl

/-- Claim C4: the preview-generation command's awk stage computes the
start line max(0, n − 5) — 95 for line 100, clamped to 0 for line 2 — and
its final `head -n10` stage caps the preview at 10 lines; the command
string itself ends in the `head -n10` limiter. -/
theorem preview_start_line_and_cap :
    (∀ n : Int, awkStart n = max 0 (n - 5)) ∧
    awkStart 100 = 95 ∧ awkStart 2 = 0 ∧
    (∀ previewLines : List String, (headLines previewLines).length ≤ 10) ∧
    List.IsInfix "| head -n10".toList preview_cmd.toList := by
    refine ⟨fun n => ?_, by decide, by decide, fun ls => ?_, by decide⟩
    · unfold awkStart
      split <;> omega
    · unfold headLines
      rw [List.length_take]
      omega

/-- Claim C5: decoding the SelectionItem encoding `path:line_number:content`
with the resolver's three-way split recovers the original triple exactly,
for any path free of the delimiter and any content (delimiter characters
in the content included), the line-number field being the decimal
rendering of the line number. -/
theorem selectionItem_roundtrip (p : String) (n : Nat) (content : String)
    (hp : ':' ∉ p.toList) (_hc : '\n' ∉ content.toList) :
    decodeItem (encodeMatch p n content) = some (p, toString n, content) := by
  have htl : (encodeMatch p n content).toList
      = p.toList ++ ':' :: ((toString n).toList ++ ':' :: content.toList) := by
    unfold encodeMatch
    simp only [toList_append]
    show p.toList ++ [':'] ++ (toString n).toList ++ [':'] ++ content.toList = _
    simp [List.append_assoc]
  have h3 : splitn 3 ':' (encodeMatch p n content) = [p, toString n, content] := by
    unfold splitn
    rw [htl, splitnList_three_encode hp (toString_nat_no_colon n)]
    simp only [List.map_cons, List.map_nil, mk_toList]
  unfold decodeItem
  rw [h3]

/-- Claim C5, witness: a concrete round trip whose content itself
contains the delimiter. -/
theorem selectionItem_roundtrip_witness :
    decodeItem (encodeMatch "notes/a.md" 3 "see a:b") = some ("notes/a.md", "3", "see a:b") :=
  selectionItem_roundtrip "notes/a.md" 3 "see a:b" (by decide) (by decide)

/-- Claim C6: with resolved editor identity "vim" the constructed
invocation is a spawn of "vim" whose arguments are `+<line>` followed by
the target path, with the current process's stdio inherited; any other
identity produces the fallback invocation, which carries no line
argument at all. -/
theorem dispatch_vim_line_argument (lineno fullname : String) :
    dispatchEditor "vim" lineno fullname
        = Invocation.spawn "vim" ["+" ++ lineno, fullname] true ∧
    ∀ editor : String, editor ≠ "vim" →
      dispatchEditor editor lineno fullname = Invocation.editFile editor := by
  refine ⟨rfl, fun editor he => ?_⟩
  unfold dispatchEditor
  split
  · exact absurd rfl he
  · rfl

/-- Claim C6, witness: concrete dispatches for "vim" and for "nano". -/
theorem dispatch_vim_line_argument_witness :
    dispatchEditor "vim" "7" "b.md" = Invocation.spawn "vim" ["+7", "b.md"] true ∧
    dispatchEditor "nano" "7" "b.md" = Invocation.editFile "nano" :=
  ⟨(dispatch_vim_line_argument "7" "b.md").1,
    (dispatch_vim_line_argument "7" "b.md").2 "nano" (by decide)⟩

/-- Claim C7, counterexample: when the search engine exits with the
unexpected status 2, the code surfaces no error at all — the captured
(empty) stdout is used as-is and yields zero items — contradicting the
claim that an unexpected exit status is surfaced as an external-tool
error. -/
theorem search_unexpected_status_not_an_error :
    searchStdout (some (2, "")) = some "" ∧ itemsOfStdout "" = [] := by
  constructor
  · rfl
  · decide

/-- Claim C7 (amended): the search delegate fails only when the search
engine process cannot be spawned; the exit status is never inspected
(the stdout of a process exiting with any status is processed normally),
and an empty captured output yields zero selectable items, after which
the edit loop performs no step — no editor invocation and no preview. -/
theorem search_error_iff_spawn_failure :
    (∀ r : Option (Int × String), searchStdout r = none ↔ r = none) ∧
    (∀ (code : Int) (out : String), searchStdout (some (code, out)) = some out) ∧
    itemsOfStdout "" = [] ∧
    (∀ (editor : String) (spawn : Invocation → Option Int)
        (fileLinesOf : String → List String),
      searchLoop editor spawn fileLinesOf [] = some []) := by
  refine ⟨fun r => ?_, fun code out => rfl, by decide, fun e sp fl => rfl⟩
  cases r <;> simp [searchStdout]

/-- Claim C8: for a file with at least one line, `print_preview` reads
only the first line (its output does not depend on the remaining lines)
and prints exactly one formatted line
`<action> <base-filename(bold)> [<first-line(dimmed)>]`; for an empty
file it prints nothing at all, and this is not an error. -/
theorem print_preview_first_line_only (action : Action) (fullname base line : String)
    (rest : List String) :
    (fileName fullname = some base →
      print_preview action fullname (line :: rest)
        = some [actionName action ++ " " ++ bold base ++ " [" ++ brightBlack line ++ "]"]) ∧
    print_preview action fullname [] = some [] := by
  refine ⟨fun h => ?_, rfl⟩
  simp [print_preview, h]

/-- Claim C8, witness: preview of a two-line file prints one line built
from the first line only, and preview of an empty file prints nothing. -/
theorem print_preview_first_line_only_witness :
    print_preview Action.Edited "20240101-a.md" ["TODO buy milk", "second line"]
      = some [actionName Action.Edited ++ " " ++ bold "20240101-a.md"
          ++ " [" ++ brightBlack "TODO buy milk" ++ "]"] ∧
    print_preview Action.Edited "20240101-a.md" [] = some [] :=
  ⟨(print_preview_first_line_only Action.Edited "20240101-a.md" "20240101-a.md"
      "TODO buy milk" ["second line"]).1 (by decide),
    (print_preview_first_line_only Action.Edited "20240101-a.md" "20240101-a.md"
      "x" []).2⟩

/-- Claim C9: an editor process that starts and exits with a non-zero
status is not treated as an error — the edit-loop step still proceeds to
the preview step exactly as for a zero exit; only a failure to start the
editor process at all aborts the step (the external-tool error). -/
theorem editor_exit_status_ignored (editor : String) (spawn : Invocation → Option Int)
    (fileLinesOf : String → List String) (output p l : String)
    (hres : resolveItem output = some (p, l)) :
    (∀ code : Int, code ≠ 0 → spawn (dispatchEditor editor l p) = some code →
      editStep editor spawn fileLinesOf output
        = (print_preview Action.Edited p (fileLinesOf p)).map
            (fun o => (dispatchEditor editor l p, o))) ∧
    (spawn (dispatchEditor editor l p) = none →
      editStep editor spawn fileLinesOf output = none) := by
  constructor
  · intro code _hc hs
    simp [editStep, hres, hs]
  · intro hs
    simp [editStep, hres, hs]

/-- Claim C9, witness: vim exits with status 1 on "a.md:3:x" and the
preview of "a.md" still runs. -/
theorem editor_exit_status_ignored_witness :
    editStep "vim" (fun _ => some 1) (fun _ => ["first line"]) "a.md:3:x"
      = some (Invocation.spawn "vim" ["+3", "a.md"] true,
          ["Edited " ++ bold "a.md" ++ " [" ++ brightBlack "first line" ++ "]"]) := by
  have h := (editor_exit_status_ignored "vim" (fun _ => some 1) (fun _ => ["first line"])
      "a.md:3:x" "a.md" "3" (by decide)).1 1 (by decide) rfl
  rw [h]
  decide

/-- Claim C10: the content field of a selection item is never consumed
after resolution — two selected items on which the resolver yields the
same (path, line) pair (in particular, items equal in their first two
delimiter-separated fields and differing only in content) produce
identical edit-loop behavior: the same editor invocation and the same
preview output. -/
theorem editStep_content_independent (editor : String) (spawn : Invocation → Option Int)
    (fileLinesOf : String → List String) (out1 out2 : String)
    (h : resolveItem out1 = resolveItem out2) :
    editStep editor spawn fileLinesOf out1 = editStep editor spawn fileLinesOf out2 := by
  unfold editStep
  rw [h]

/-- Claim C10, witness: two items sharing path "a.md" and line "3" but
with different content fields produce the same edit-loop step. -/
theorem editStep_content_independent_witness :
    editStep "vim" (fun _ => some 0) (fun _ => ["top"]) "a.md:3:alpha"
      = editStep "vim" (fun _ => some 0) (fun _ => ["top"]) "a.md:3:beta" :=
  editStep_content_independent "vim" (fun _ => some 0) (fun _ => ["top"])
    "a.md:3:alpha" "a.md:3:beta" (by decide)

end Nt
